import Mathlib

/-!
# Verification of the `money` package (fixed-point currency type)

A shallow embedding of the `money` package: the `Currency` value type with
its scaled-integer representation, overflow-checked arithmetic, guard-digit
rounding, Swedish-rounding engine and the reversible option mechanism.

Modelling conventions:
* Go `int64` values are embedded as `Int` together with the range predicate
  `inRange`; every Go arithmetic assignment that can wrap is written through
  `wrap64` (two's-complement wraparound modulo 2^64).
* Go `float64` values are embedded as exact rationals (`ℚ`); every concrete
  evaluation below stays at magnitudes where binary floating point and exact
  rational arithmetic agree (the relevant comparisons are against 0, 1/2 and
  small scaled integers, all exactly representable).
* The pluggable collaborators (locale formatter, JSON encoder/decoder) are
  opaque capability handles, embedded as `Nat`, with `Option` modelling Go's
  nilable interface values.  Logging calls are effect-free and are dropped.
* Go's self-referential `OptionFunc` closures are deeply embedded: every
  closure the package can ever create is produced by one of the six exported
  constructors, each of which validates its argument *before* capturing it,
  so an inductive type carrying the captured (already validated) payload is
  a faithful representation.
-/

namespace Money

/-! ## The int64 machine model.
`9223372036854775808 = 2^63`, `18446744073709551616 = 2^64`,
`9223372036854775807 = math.MaxInt64`, `-9223372036854775808 = math.MinInt64`. -/

/-- `math.MaxInt64`. -/
def maxI64 : Int := 9223372036854775807

/-- `math.MinInt64`. -/
def minI64 : Int := -9223372036854775808

/-- The value range of a Go `int64` variable. -/
abbrev inRange (x : Int) : Prop := minI64 ≤ x ∧ x ≤ maxI64

/-- Two's-complement wraparound of Go `int64` arithmetic (`+`, `-`, `*`). -/
def wrap64 (z : Int) : Int :=
  (z + 9223372036854775808) % 18446744073709551616 - 9223372036854775808

/-- The unsigned 64-bit pattern representing an `int64` value; Go's bitwise
operators `^`, `&`, `&^` act on this pattern. -/
def toU (x : Int) : Nat := (x % 18446744073709551616).toNat

/-- `(r^a)&(r^b) < 0`, the sign-bit overflow test of `Currency.Add`,
with `r` the wrapped sum: an `int64` is negative iff its bit 63 is set. -/
def addOvf (a b : Int) : Bool :=
  ((toU (wrap64 (a + b)) ^^^ toU a) &&& (toU (wrap64 (a + b)) ^^^ toU b)).testBit 63

/-- `(r^a)&^(r^b) < 0`, the sign-bit overflow test of `Currency.Sub`,
with `r` the wrapped difference.  `&^` is Go's AND NOT; on the 64-bit
patterns produced by `toU` it equals AND with the XOR-complement against
the all-ones mask `2^64 - 1`. -/
def subOvf (a b : Int) : Bool :=
  ((toU (wrap64 (a - b)) ^^^ toU a) &&&
    ((toU (wrap64 (a - b)) ^^^ toU b) ^^^ 18446744073709551615)).testBit 63

/-! ## Package-level constants and defaults -/

/-- `Interval000`: no swedish rounding (default). -/
def Interval000 : Nat := 0

/-- `Interval005`: rounding with 0.05 intervals. -/
def Interval005 : Nat := 1

/-- `Interval010`: rounding with 0.10 intervals. -/
def Interval010 : Nat := 2

/-- `Interval015`: same as `Interval010` except that 5 will be rounded down. -/
def Interval015 : Nat := 3

/-- `Interval025`: rounding with 0.25 intervals. -/
def Interval025 : Nat := 4

/-- `Interval050`: rounding with 0.50 intervals. -/
def Interval050 : Nat := 5

/-- `Interval100`: rounding with 1.00 intervals. -/
def Interval100 : Nat := 6

/-- `interval999`: the first out-of-scope interval value. -/
def interval999 : Nat := 7

/-- Modelled from the spec: the package default precision constant `dp`,
defined in a money-package file that is not part of the reviewed sources.
The spec fixes only that it is strictly positive and a power of ten; its
worked examples are "scaled at precision 2, i.e. cents", so `10^2` is used.
No theorem below depends on its exact value except through the explicit
fallback behaviour of `Precision`. -/
def dp : Int := 100

/-- Modelled from the spec: float mirror `dpf = float64(dp)` (exact). -/
def dpf : ℚ := 100

/-- Modelled from the spec: the package default guard constant `guard`,
defined outside the reviewed sources; the spec fixes only that it is a
strictly positive integer.  No theorem below depends on its exact value. -/
def guard : Int := 10000

/-- Modelled from the spec: float mirror `guardf = float64(guard)` (exact). -/
def guardf : ℚ := 10000

/-- Modelled from the spec: `DefaultFormat`, the package default locale
formatter, an external collaborator embedded as an opaque handle. -/
def DefaultFormat : Nat := 0

/-- Modelled from the spec: `DefaultJSONEncode`, the default JSON encoder. -/
def DefaultJSONEncode : Nat := 0

/-- Modelled from the spec: `DefaultJSONDecode`, the default JSON decoder. -/
def DefaultJSONDecode : Nat := 0

/-- Modelled from the spec: `NewJSONEncoder()` produces a built-in default
encoder; the identity of the fresh value is collapsed onto the default
handle (the claims never distinguish two default encoders). -/
def NewJSONEncoder : Nat := 0

/-- Modelled from the spec: `NewJSONDecoder()`, as for `NewJSONEncoder`. -/
def NewJSONDecoder : Nat := 0

/-- `RoundTo = .5`, the guard-digit rounding threshold (package variable,
modelled at its default value, which is exact in binary floating point). -/
def RoundTo : ℚ := 1 / 2

/-- `RoundToN = RoundTo * -1`. -/
def RoundToN : ℚ := RoundTo * -1

/-! ## The `Currency` struct -/

/-- The `Currency` struct.  `m` is the money amount in `Guard/DP` units.
The scratch print buffer `bufC` is omitted: it carries no arithmetic
state (it is reset at each formatting call) and no claim mentions it. -/
structure Currency where
  m : Int
  fmt : Option Nat
  Valid : Bool
  Interval : Nat
  jm : Option Nat
  jum : Option Nat
  guard : Int
  guardf : ℚ
  dp : Int
  dpf : ℚ
deriving DecidableEq

/-- The Go zero value `Currency{}` (all fields at their zero values). -/
def zeroCurrency : Currency :=
  { m := 0, fmt := none, Valid := false, Interval := 0, jm := none, jum := none,
    guard := 0, guardf := 0, dp := 0, dpf := 0 }

/-! ## The option mechanism

`OptionFunc` is a deep embedding of the Go closures: each exported
constructor validates its argument before capturing it, so the payload of
each variant below is the already-validated captured value.  `fatal` models
the `log.Fatal` call issued by `Format(nil)`: the Go process aborts there,
so that value never acts on a `Currency` in a terminating execution. -/

inductive OptionFunc where
  | swedish (i : Nat)
  | guardO (g : Int)
  | precision (p : Int)
  | format (f : Nat)
  | jsonM (m : Nat)
  | jsonU (u : Nat)
  | fatal
deriving DecidableEq

/-- `Swedish(i)`: out-of-scope intervals are reset to `Interval000`
(the error is logged, an effect outside the model). -/
def Swedish (i : Nat) : OptionFunc :=
  .swedish (if interval999 ≤ i then Interval000 else i)

/-- `Guard(g)`: a zero guard is coerced to 1. -/
def Guard (g : Int) : OptionFunc :=
  .guardO (if g = 0 then 1 else g)

/-- The table of `⌈e^k⌉` for `k = 1..44`; `e^43 < 2^63 < e^44`, so the
table covers every `int64` input of `math.Log`. -/
def eCeilTable : List Nat :=
  [3, 8, 21, 55, 149, 404, 1097, 2981, 8104, 22027, 59875, 162755, 442414,
   1202605, 3269018, 8886111, 24154953, 65659970, 178482301, 485165196,
   1318815735, 3584912847, 9744803447, 26489122130, 72004899338,
   195729609429, 532048240602, 1446257064292, 3931334297145,
   10686474581525, 29048849665248, 78962960182681, 214643579785917,
   583461742527455, 1586013452313431, 4311231547115196, 11719142372802612,
   31855931757113757, 86593400423993747, 235385266837019986,
   639843493530054950, 1739274941520501048, 4727839468229346562,
   12851600114359308276]

/-- `⌊ln p⌋` for `p ≥ 1`: the number of powers `e^k ≤ p`.  Since `e^k` is
irrational, `e^k ≤ p` for an integer `p` iff `⌈e^k⌉ ≤ p`. -/
def lnFloor (p : Nat) : Nat :=
  eCeilTable.countP (fun t => t ≤ p)

/-- `l := int64(math.Log(float64(p)))` in `Precision`: for `p ≥ 1` this is
the exact `⌊ln p⌋` (the float error of `math.Log` cannot move the
truncation at any input where this development evaluates the result); for
`p ≤ 0`, `math.Log` yields NaN or -Inf, which Go's int64 conversion maps
to `math.MinInt64` on amd64 — a value whose only use here is its parity. -/
def logTrunc (p : Int) : Int :=
  if p ≤ 0 then minI64 else (lnFloor p.toNat : Int)

/-- The precision value actually stored by the `Precision(p)` option:
`p64 := int64(p); l := int64(math.Log(float64(p64)));
if p64 != 0 && (l%2) != 0 { p64 = dp }; if p64 == 0 { p64 = 1 }`. -/
def precVal (p : Int) : Int :=
  let l := logTrunc p
  let p64 := if p ≠ 0 ∧ Int.tmod l 2 ≠ 0 then dp else p
  if p64 = 0 then 1 else p64

/-- `Precision(p)`. -/
def Precision (p : Int) : OptionFunc :=
  .precision (precVal p)

/-- `Format(f)`: a nil formatter is a fatal configuration error. -/
def Format (f : Option Nat) : OptionFunc :=
  match f with
  | none => .fatal
  | some h => .format h

/-- `JSONMarshal(m)`: a nil marshaller is replaced by `NewJSONEncoder()`. -/
def JSONMarshal (m : Option Nat) : OptionFunc :=
  .jsonM (match m with | none => NewJSONEncoder | some h => h)

/-- `JSONUnmarshal(um)`: a nil unmarshaller is replaced by
`NewJSONDecoder()`. -/
def JSONUnmarshal (u : Option Nat) : OptionFunc :=
  .jsonU (match u with | none => NewJSONDecoder | some h => h)

/-- Applying one `OptionFunc` to a `Currency`: returns the updated value
and the inverse option produced by the closure (each closure captures the
previous field value and feeds it back through its own constructor). -/
def applyOpt : OptionFunc → Currency → Currency × OptionFunc
  | .swedish i, c => ({ c with Interval := i }, Swedish c.Interval)
  | .guardO g, c => ({ c with guard := g, guardf := (g : ℚ) }, Guard c.guard)
  | .precision p, c => ({ c with dp := p, dpf := (p : ℚ) }, Precision c.dp)
  | .format f, c => ({ c with fmt := some f }, Format c.fmt)
  | .jsonM m, c => ({ c with jm := some m }, JSONMarshal c.jm)
  | .jsonU u, c => ({ c with jum := some u }, JSONUnmarshal c.jum)
  | .fatal, c => (c, .fatal)

/-- `Currency.Option(opts...)`: folds the options over the value (the Go
method also returns the last inverse; only the updated value is needed by
the claims). -/
def applyOpts (opts : List OptionFunc) (c : Currency) : Currency :=
  opts.foldl (fun acc o => (applyOpt o acc).1) c

/-- `New(opts...)`: a fresh `Currency` with the package defaults for
guard, precision, formatter and JSON codecs; `m` and `Valid` are Go
zero-initialised. -/
def New (opts : List OptionFunc) : Currency :=
  applyOpts opts
    { m := 0, fmt := some DefaultFormat, Valid := false, Interval := Interval000,
      jm := some DefaultJSONEncode, jum := some DefaultJSONDecode,
      guard := Money.guard, guardf := Money.guardf, dp := Money.dp,
      dpf := Money.dpf }

/-! ## Value accessors and arithmetic -/

/-- `Raw()`: the raw scaled-integer amount. -/
def Currency.Raw (c : Currency) : Int := c.m

/-- `Set(i)`: installs the raw amount and marks the value valid. -/
def Currency.Set (c : Currency) (i : Int) : Currency :=
  { c with m := i, Valid := true }

/-- `Getf()`: `float64(c.m) / c.dpf`. -/
def Currency.Getf (c : Currency) : ℚ := (c.m : ℚ) / c.dpf

/-- `Geti()`: `c.m / c.dp`, Go integer division (truncates toward zero). -/
def Currency.Geti (c : Currency) : Int := Int.tdiv c.m c.dp

/-- `Neg()`: `c.m *= -1` when nonzero (Go multiplication wraps). -/
def Currency.Neg (c : Currency) : Currency :=
  if c.m ≠ 0 then { c with m := wrap64 (c.m * -1) } else c

/-- `Abs()`: absolute value via `Neg` when negative. -/
def Currency.Abs (c : Currency) : Currency :=
  if c.m < 0 then c.Neg else c

/-- `Dec()`: `c.Abs().Raw() % c.dp`, with Go's truncated `%`. -/
def Currency.Dec (c : Currency) : Int :=
  Int.tmod c.Abs.Raw c.dp

/-- `rnd(r, trunc)`: guard-digit rounding of a truncated result `r` by the
float remainder `trunc` that was cut away. -/
def rnd (r : Int) (trunc : ℚ) : Int :=
  if trunc > 0 then
    if trunc ≥ RoundTo then r + 1 else r
  else
    if trunc < RoundToN then r - 1 else r

/-- Go's float64-to-int64 conversion: truncation toward zero (conversions
outside the int64 range are not exercised by any claim). -/
def i64trunc (q : ℚ) : Int :=
  if q < 0 then ⌈q⌉ else ⌊q⌋

/-- `Setf(f)`: scale a float into the integer domain and round the cut
remainder through `rnd`; marks the value valid (via `Set`). -/
def Currency.Setf (c : Currency) (f : ℚ) : Currency :=
  let fDPf := f * c.dpf
  let r := i64trunc (f * c.dpf)
  c.Set (rnd r (fDPf - (r : ℚ)))

/-- `Round(f)`: `math.Floor(f + .5)`. -/
def Round (f : ℚ) : ℚ := (⌊f + 1 / 2⌋ : ℚ)

/-- `Add(d)`: wrapped sum with the sign-bit overflow test; on overflow the
error is logged and a fresh default `New()` value is returned. -/
def Currency.Add (c d : Currency) : Currency :=
  if addOvf c.m d.m then New []
  else { c with m := wrap64 (c.m + d.m), Valid := true }

/-- `Sub(d)`: wrapped difference with the sign-bit overflow test; on
overflow a fresh default `New()` value is returned.  Unlike `Add`, the
`Valid` flag is left untouched on success. -/
def Currency.Sub (c d : Currency) : Currency :=
  if subOvf c.m d.m then New []
  else { c with m := wrap64 (c.m - d.m) }

/-- `Swedish(opts...)`: applies the configured rounding interval. -/
def Currency.Swedish (c : Currency) (opts : List OptionFunc) : Currency :=
  let c := applyOpts opts c
  if c.Interval = Interval005 then
    c.Setf (Round (c.Getf * 20) / 20)
  else if c.Interval = Interval010 then
    c.Setf (Round (c.Getf * 10) / 10)
  else if c.Interval = Interval015 then
    let c := if Int.tmod c.m 5 = 0 then { c with m := wrap64 (c.m - 1) } else c
    c.Setf (Round (c.Getf * 10) / 10)
  else if c.Interval = Interval025 then
    c.Setf (Round (c.Getf * 4) / 4)
  else if c.Interval = Interval050 then
    c.Setf (Round (c.Getf * 2) / 2)
  else if c.Interval = Interval100 then
    c.Setf (Round (c.Getf * 1) / 1)
  else c

/-! ## Auxiliary definitions for the theorems -/

/-- A call to one of the six exported option constructors, with its raw
(not yet validated) argument.  Every `OptionFunc` the Go program can ever
hold — including every inverse returned by an application — is the image
of such a call under `mkOpt`. -/
inductive OptCall where
  | swedish (i : Nat)
  | guardC (g : Int)
  | precision (p : Int)
  | format (f : Option Nat)
  | jsonM (m : Option Nat)
  | jsonU (u : Option Nat)

/-- The `OptionFunc` produced by an option-constructor call. -/
def mkOpt : OptCall → OptionFunc
  | .swedish i => Swedish i
  | .guardC g => Guard g
  | .precision p => Precision p
  | .format f => Format f
  | .jsonM m => JSONMarshal m
  | .jsonU u => JSONUnmarshal u

/-- A valid `Currency` configured at precision 2 (`dp = 10^2`, the scaling
of the spec's rounding-interval table) with the given rounding interval
and raw amount. -/
def swedishSample (i : Nat) (amount : Int) : Currency :=
  { m := amount, fmt := some DefaultFormat, Valid := true, Interval := i,
    jm := some DefaultJSONEncode, jum := some DefaultJSONDecode,
    guard := Money.guard, guardf := Money.guardf, dp := 100, dpf := 100 }

/-! ### Machine-model lemmas -/

lemma wrap64_inRange (z : Int) : inRange (wrap64 z) := by
  simp only [inRange, wrap64, minI64, maxI64]
  constructor <;> omega

lemma wrap64_id {z : Int} (h : inRange z) : wrap64 z = z := by
  simp only [inRange, minI64, maxI64] at h
  simp only [wrap64]
  omega

lemma wrap64_high {z : Int} (h0 : 9223372036854775807 < z)
    (h1 : z < 9223372036854775808 * 3) :
    wrap64 z = z - 18446744073709551616 := by
  simp only [wrap64]
  omega

lemma wrap64_low {z : Int} (h0 : z < -9223372036854775808)
    (h1 : -(9223372036854775808 * 3) < z) :
    wrap64 z = z + 18446744073709551616 := by
  simp only [wrap64]
  omega

lemma tb_of_nonneg {x : Int} (h0 : 0 ≤ x) (h1 : x ≤ 9223372036854775807) :
    (toU x).testBit 63 = false := by
  simp only [toU]
  rw [Nat.testBit_to_div_mod]
  simp only [decide_eq_false_iff_not]
  have h2 : (2 : Nat) ^ 63 = 9223372036854775808 := by norm_num
  rw [h2]
  omega

lemma tb_of_neg {x : Int} (h0 : -9223372036854775808 ≤ x) (h1 : x < 0) :
    (toU x).testBit 63 = true := by
  simp only [toU]
  rw [Nat.testBit_to_div_mod]
  simp only [decide_eq_true_eq]
  have h2 : (2 : Nat) ^ 63 = 9223372036854775808 := by norm_num
  rw [h2]
  omega

/-- The sign-bit test of `Add` fires exactly on mathematical overflow. -/
lemma addOvf_iff {a b : Int} (ha : inRange a) (hb : inRange b) :
    addOvf a b = true ↔ (maxI64 < a + b ∨ a + b < minI64) := by
  obtain ⟨ha1, ha2⟩ := ha
  obtain ⟨hb1, hb2⟩ := hb
  simp only [minI64, maxI64] at ha1 ha2 hb1 hb2 ⊢
  unfold addOvf
  rw [Nat.testBit_land, Nat.testBit_xor, Nat.testBit_xor]
  rcases le_or_lt (a + b) 9223372036854775807 with hle | hgt
  · rcases le_or_lt (-9223372036854775808) (a + b) with hge | hlt
    · -- the sum is representable: the test must not fire
      rw [wrap64_id ⟨hge, hle⟩]
      constructor
      · intro hcontra
        exfalso
        rcases le_or_lt 0 a with haP | haN <;> rcases le_or_lt 0 b with hbP | hbN
        · rw [tb_of_nonneg (by omega) hle, tb_of_nonneg haP ha2] at hcontra
          simp at hcontra
        · rcases le_or_lt 0 (a + b) with hsP | hsN
          · rw [tb_of_nonneg hsP hle, tb_of_nonneg haP ha2] at hcontra
            simp at hcontra
          · rw [tb_of_neg hge hsN, tb_of_neg hb1 hbN] at hcontra
            simp at hcontra
        · rcases le_or_lt 0 (a + b) with hsP | hsN
          · rw [tb_of_nonneg hsP hle, tb_of_nonneg hbP hb2] at hcontra
            simp at hcontra
          · rw [tb_of_neg hge hsN, tb_of_neg ha1 haN] at hcontra
            simp at hcontra
        · rw [tb_of_neg hge (by omega), tb_of_neg ha1 haN] at hcontra
          simp at hcontra
      · intro h
        exfalso
        omega
    · -- negative overflow: both operands are negative, the wrap is nonnegative
      have haN : a < 0 := by omega
      have hbN : b < 0 := by omega
      rw [wrap64_low hlt (by omega)]
      rw [tb_of_nonneg (by omega) (by omega), tb_of_neg ha1 haN, tb_of_neg hb1 hbN]
      simpa using Or.inr hlt
  · -- positive overflow: both operands are positive, the wrap is negative
    have haP : 0 < a := by omega
    have hbP : 0 < b := by omega
    rw [wrap64_high hgt (by omega)]
    rw [tb_of_neg (by omega) (by omega),
        tb_of_nonneg (le_of_lt haP) ha2, tb_of_nonneg (le_of_lt hbP) hb2]
    simpa using Or.inl hgt

/-- The sign-bit test of `Sub` fires exactly on mathematical overflow. -/
lemma subOvf_iff {a b : Int} (ha : inRange a) (hb : inRange b) :
    subOvf a b = true ↔ (maxI64 < a - b ∨ a - b < minI64) := by
  obtain ⟨ha1, ha2⟩ := ha
  obtain ⟨hb1, hb2⟩ := hb
  simp only [minI64, maxI64] at ha1 ha2 hb1 hb2 ⊢
  unfold subOvf
  have hmask : (18446744073709551615 : Nat).testBit 63 = true := by
    rw [Nat.testBit_to_div_mod]
    norm_num
  rw [Nat.testBit_land, Nat.testBit_xor, Nat.testBit_xor, Nat.testBit_xor, hmask,
    Bool.xor_true]
  rcases le_or_lt (a - b) 9223372036854775807 with hle | hgt
  · rcases le_or_lt (-9223372036854775808) (a - b) with hge | hlt
    · -- the difference is representable: the test must not fire
      rw [wrap64_id ⟨hge, hle⟩]
      constructor
      · intro hcontra
        exfalso
        rcases le_or_lt 0 (a - b) with hsP | hsN
        · -- nonneg difference: the test needs a negative and b nonnegative
          rw [tb_of_nonneg hsP hle] at hcontra
          rcases le_or_lt 0 a with haP | haN
          · rw [tb_of_nonneg haP ha2] at hcontra; simp at hcontra
          · rcases le_or_lt 0 b with hbP | hbN
            · rw [tb_of_nonneg hbP hb2] at hcontra
              omega
            · rw [tb_of_neg hb1 hbN] at hcontra; simp at hcontra
        · rw [tb_of_neg hge hsN] at hcontra
          rcases le_or_lt 0 a with haP | haN
          · rcases le_or_lt 0 b with hbP | hbN
            · rw [tb_of_nonneg hbP hb2] at hcontra; simp at hcontra
            · rw [tb_of_neg hb1 hbN] at hcontra
              omega
          · rw [tb_of_neg ha1 haN] at hcontra; simp at hcontra
      · intro h
        exfalso
        omega
    · -- negative overflow: a negative, b nonnegative, the wrap is nonnegative
      have haN : a < 0 := by omega
      have hbP : 0 ≤ b := by omega
      rw [wrap64_low hlt (by omega)]
      rw [tb_of_nonneg (by omega) (by omega), tb_of_neg ha1 haN, tb_of_nonneg hbP hb2]
      simpa using Or.inr hlt
  · -- positive overflow: a nonnegative, b negative, the wrap is negative
    have haP : 0 ≤ a := by omega
    have hbN : b < 0 := by omega
    rw [wrap64_high hgt (by omega)]
    rw [tb_of_neg (by omega) (by omega), tb_of_nonneg haP ha2, tb_of_neg hb1 hbN]
    simpa using Or.inl hgt

/-! ## Claim theorems -/

/-- Claim C1: for every pair of `Currency` values whose raw amounts sum
past the int64 range, `Add` detects the overflow via the sign-bit test and
returns a fresh default-configured `Currency` whose raw amount is 0 and
whose `Valid` flag is false, rather than a wrapped sum. -/
theorem add_overflow_returns_default (a b : Currency)
    (ha : inRange a.m) (hb : inRange b.m)
    (hovf : maxI64 < a.m + b.m ∨ a.m + b.m < minI64) :
    addOvf a.m b.m = true ∧ a.Add b = New [] ∧
      (a.Add b).Raw = 0 ∧ (a.Add b).Valid = false := by
  have h : addOvf a.m b.m = true := (addOvf_iff ha hb).mpr hovf
  have he : a.Add b = New [] := by simp [Currency.Add, h]
  exact ⟨h, he, by rw [he]; rfl, by rw [he]; rfl⟩

/-- Witness for C1 at the spec's boundary input
`Set(math.MaxInt64/2+1).Add(Set(math.MaxInt64/2+1))`
(`math.MaxInt64/2+1 = 4611686018427387904`). -/
theorem add_overflow_returns_default_witness :
    inRange ((New []).Set 4611686018427387904).m ∧
    (((New []).Set 4611686018427387904).Add
        ((New []).Set 4611686018427387904)).Raw = 0 ∧
    (((New []).Set 4611686018427387904).Add
        ((New []).Set 4611686018427387904)).Valid = false :=
  ⟨by decide,
   (add_overflow_returns_default _ _ (by decide) (by decide) (by decide)).2.2.1,
   (add_overflow_returns_default _ _ (by decide) (by decide) (by decide)).2.2.2⟩

/-- Claim C3, counterexample: at the exact negative half-unit remainder
`t = -0.5` (which equals `RoundToN`), `rnd` keeps `r` unchanged instead of
returning `r - 1`, because the negative branch uses a strict comparison. -/
theorem rnd_neg_half_counterexample :
    RoundToN = -(1 / 2) ∧ rnd 0 (-(1 / 2)) = 0 ∧ rnd 0 (-(1 / 2)) ≠ 0 - 1 := by
  norm_num [rnd, RoundTo, RoundToN]

/-- Claim C3 as amended: `rnd` rounds up when `t ≥ RoundTo = 0.5`, rounds
down only when `t` is strictly below `RoundToN = -0.5`, and keeps `r`
unchanged on `[-0.5, 0.5)` — the exact `-0.5` remainder is kept, not
rounded down. -/
theorem rnd_half_behavior (r : Int) (t : ℚ) :
    (RoundTo ≤ t → rnd r t = r + 1) ∧
    (t < RoundToN → rnd r t = r - 1) ∧
    (RoundToN ≤ t → t < RoundTo → rnd r t = r) := by
  refine ⟨fun h => ?_, fun h => ?_, fun h1 h2 => ?_⟩ <;>
    simp only [rnd, RoundToN, RoundTo] at * <;>
    split_ifs with ha hb <;>
    first
    | rfl
    | (exfalso; push_neg at *; linarith)

/-- Witness for C3 (amended) on the three regimes of the remainder. -/
theorem rnd_half_behavior_witness :
    rnd 7 (3 / 4) = 8 ∧ rnd 7 (-(3 / 4)) = 6 ∧ rnd 7 (1 / 4) = 7 :=
  ⟨(rnd_half_behavior 7 (3 / 4)).1 (by norm_num [RoundTo]),
   (rnd_half_behavior 7 (-(3 / 4))).2.1 (by norm_num [RoundTo, RoundToN]),
   (rnd_half_behavior 7 (1 / 4)).2.2 (by norm_num [RoundTo, RoundToN])
     (by norm_num [RoundTo])⟩

/-- Claim C5 (code bug): `Precision` computes `int64(math.Log(p))` — the
natural logarithm, not the base-10 one — and falls back when that value is
odd.  Hence the power of ten `10^4 = 10000` (⌊ln 10000⌋ = 9, odd) is *not*
installed as given but replaced by the package default, while `2` (not a
power of ten, ⌊ln 2⌋ = 0, even) *is* installed as given; zero is coerced
to 1.  This contradicts the function's own documentation ("2 decimal
places => 10^2; ... x decimal places => 10^x.  If not a decimal power then
falls back to the default value."). -/
theorem precision_power_of_ten_bug :
    precVal 10000 = Money.dp ∧ precVal 10000 ≠ 10000 ∧
    precVal 2 = 2 ∧ precVal 0 = 1 := by
  decide

/-- Claim C6: the Swedish-rounding table at precision 2 —
`0.45` with `Interval015` yields `0.40` (the raw amount 45 is divisible by
5, so it is decremented to 44 before the round-half-up step) whereas
`Interval010` on `0.45` yields `0.50`; `Interval010` maps `0.43` to `0.40`
and `0.46` to `0.50`. -/
theorem swedish_rounding_table :
    ((swedishSample Interval015 45).Swedish []).Raw = 40 ∧
    ((swedishSample Interval010 45).Swedish []).Raw = 50 ∧
    ((swedishSample Interval010 43).Swedish []).Raw = 40 ∧
    ((swedishSample Interval010 46).Swedish []).Raw = 50 := by
  norm_num [Currency.Swedish, Currency.Setf, Currency.Set, Currency.Getf,
    Currency.Raw, swedishSample, applyOpts, Round, rnd, i64trunc, RoundTo,
    RoundToN, Interval000, Interval005, Interval010, Interval015,
    Interval025, Interval050, Interval100, wrap64, Int.tmod]

/-- Claim C8, counterexample: at `amount = math.MinInt64` (with precision
`dp = 100`), `Abs` wraps back to `math.MinInt64`, so `Dec()` returns the
negative remainder `-8` and not the non-negative `|amount| % dp = 8`. -/
theorem dec_min_counterexample :
    (swedishSample Interval000 minI64).Dec = -8 ∧
    |(swedishSample Interval000 minI64).m| % (swedishSample Interval000 minI64).dp = 8 ∧
    (swedishSample Interval000 minI64).Dec < 0 := by
  decide

/-- Claim C8 as amended: for every `Currency` whose raw amount is strictly
greater than `math.MinInt64` (and with a positive precision), `Dec()`
returns `|amount| % dp`, equal to `Abs().Raw() % dp`, and is the
non-negative remainder of the absolute value. -/
theorem dec_abs_remainder (c : Currency) (h1 : inRange c.m)
    (h2 : minI64 < c.m) (h3 : 0 < c.dp) :
    c.Dec = |c.m| % c.dp ∧ c.Dec = Int.tmod c.Abs.Raw c.dp ∧ 0 ≤ c.Dec := by
  obtain ⟨hlo, hhi⟩ := h1
  simp only [minI64, maxI64] at hlo hhi h2
  have habs : c.Abs.Raw = |c.m| := by
    rcases lt_or_le c.m 0 with hm | hm
    · simp only [Currency.Abs, Currency.Neg, Currency.Raw, if_pos hm,
        if_pos (show c.m ≠ 0 by omega)]
      rw [show c.m * -1 = -c.m by ring,
        wrap64_id ⟨by simp only [minI64]; omega, by simp only [maxI64]; omega⟩,
        abs_of_neg hm]
    · simp only [Currency.Abs, Currency.Raw, if_neg (not_lt.mpr hm),
        abs_of_nonneg hm]
  have hdec : c.Dec = Int.tmod |c.m| c.dp := by
    simp only [Currency.Dec, habs]
  refine ⟨?_, by simp only [Currency.Dec], ?_⟩
  · rw [hdec, Int.tmod_eq_emod (abs_nonneg _) (le_of_lt h3)]
  · rw [hdec]
    exact Int.tmod_nonneg _ (abs_nonneg _)

/-- Witness for C8 (amended) at `amount = -1234`, `dp = 100`:
`Dec = |-1234| % 100 = 34 ≥ 0`. -/
theorem dec_abs_remainder_witness :
    0 < (swedishSample Interval000 (-1234)).dp ∧
    (swedishSample Interval000 (-1234)).Dec = 34 ∧
    0 ≤ (swedishSample Interval000 (-1234)).Dec :=
  ⟨by decide, by decide,
   (dec_abs_remainder _ (by decide) (by decide) (by decide)).2.2⟩

/-- Claim C9: a non-overflowing `Sub` leaves the `Valid` flag exactly as it
was on the receiver (it is not set to true), whereas a non-overflowing
`Add` always sets `Valid` to true in the result — so subtracting from an
invalid `Currency` stays invalid, while adding to an invalid `Currency`
yields a valid result. -/
theorem sub_keeps_valid_add_sets_valid (a b : Currency) :
    (subOvf a.m b.m = false → (a.Sub b).Valid = a.Valid) ∧
    (addOvf a.m b.m = false → (a.Add b).Valid = true) := by
  constructor <;> intro h <;> simp [Currency.Sub, Currency.Add, h]

/-- Witness for C9: `New()` is invalid; subtracting a valid value from it
stays invalid even though the arithmetic succeeded, while adding one
yields a valid result. -/
theorem sub_keeps_valid_add_sets_valid_witness :
    ((New []).Sub ((New []).Set 3)).Valid = false ∧
    ((New []).Add ((New []).Set 3)).Valid = true := by
  constructor
  · rw [(sub_keeps_valid_add_sets_valid (New []) ((New []).Set 3)).1 (by decide)]
    rfl
  · exact (sub_keeps_valid_add_sets_valid (New []) ((New []).Set 3)).2 (by decide)

/-- Claim C10: for every `Currency` whose raw amount is strictly greater
than `math.MinInt64`, `Abs().Raw()` is non-negative; at the single amount
`math.MinInt64`, `Neg` (and hence `Abs`) wraps modulo 2^64 and returns
`math.MinInt64` itself, a negative result. -/
theorem abs_min_int_wraps (c : Currency) (h : inRange c.m) :
    (minI64 < c.m → 0 ≤ c.Abs.Raw) ∧
    (c.m = minI64 → c.Abs.Raw = minI64 ∧ c.Abs.Raw < 0) := by
  obtain ⟨hlo, hhi⟩ := h
  simp only [minI64, maxI64] at hlo hhi ⊢
  constructor
  · intro h2
    rcases lt_or_le c.m 0 with hm | hm
    · simp only [Currency.Abs, Currency.Neg, Currency.Raw, if_pos hm,
        if_pos (show c.m ≠ 0 by omega)]
      rw [show c.m * -1 = -c.m by ring, wrap64_id ⟨by simp only [minI64]; omega,
        by simp only [maxI64]; omega⟩]
      omega
    · simp only [Currency.Abs, Currency.Raw, if_neg (not_lt.mpr hm)]
      omega
  · intro h2
    have hm : c.m < 0 := by omega
    simp only [Currency.Abs, Currency.Neg, Currency.Raw, if_pos hm,
      if_pos (show c.m ≠ 0 by omega)]
    rw [h2]
    constructor <;> decide

/-- Witness for C10 at the amounts `-5` (absolute value 5 ≥ 0) and
`math.MinInt64` (wraps to itself, negative). -/
theorem abs_min_int_wraps_witness :
    0 ≤ ((swedishSample Interval000 (-5)).Abs).Raw ∧
    ((swedishSample Interval000 minI64).Abs).Raw = minI64 :=
  ⟨(abs_min_int_wraps (swedishSample Interval000 (-5)) (by decide)).1 (by decide),
   ((abs_min_int_wraps (swedishSample Interval000 minI64) (by decide)).2 (by decide)).1⟩

/-- Claim C2: for every pair of valid `Currency` values `a` and `b` such
that `a.Add(b)` does not overflow (and the subsequent subtraction does not
overflow), `a.Add(b).Sub(b).Raw()` equals `a.Raw()`. -/
theorem add_sub_roundtrip (a b : Currency)
    (hva : a.Valid = true) (hvb : b.Valid = true)
    (ha : inRange a.m) (hb : inRange b.m)
    (hadd : addOvf a.m b.m = false)
    (hsub : subOvf (a.Add b).m b.m = false) :
    ((a.Add b).Sub b).Raw = a.Raw := by
  have hs : inRange (a.m + b.m) := by
    by_contra hc
    have h2 : addOvf a.m b.m = true :=
      (addOvf_iff ha hb).mpr (by simp only [inRange, minI64, maxI64] at hc ⊢; omega)
    rw [hadd] at h2
    exact Bool.false_ne_true h2
  have hw : wrap64 (a.m + b.m) = a.m + b.m := wrap64_id hs
  have hAa : a.Add b = { a with m := a.m + b.m, Valid := true } := by
    unfold Currency.Add
    rw [hadd, hw]
    simp
  have hsub2 : subOvf (a.m + b.m) b.m = false := by
    by_contra hc
    have h3 := (subOvf_iff hs hb).mp (by
      revert hc
      cases subOvf (a.m + b.m) b.m <;> simp)
    obtain ⟨ha1, ha2⟩ := ha
    simp only [minI64, maxI64] at h3 ha1 ha2
    omega
  rw [hAa]
  unfold Currency.Sub Currency.Raw
  rw [show ({ a with m := a.m + b.m, Valid := true } : Currency).m = a.m + b.m
      from rfl, hsub2]
  simp only [Bool.false_eq_true, if_false]
  rw [show a.m + b.m - b.m = a.m by ring, wrap64_id ha]

/-- Witness for C2 at `a = Set(700)`, `b = Set(42)`. -/
theorem add_sub_roundtrip_witness :
    ((((New []).Set 700).Add ((New []).Set 42)).Sub ((New []).Set 42)).Raw =
      ((New []).Set 700).Raw :=
  add_sub_roundtrip ((New []).Set 700) ((New []).Set 42) (by decide) (by decide)
    (by decide) (by decide) (by decide) (by decide)

/-- Claim C4, counterexample: the option-inverse round trip is not exact
on every `Currency` — on the Go zero value (whose guard is 0), applying
`Guard(5)` and then the returned inverse `Guard(0)` installs the coerced
guard 1, not the prior value 0. -/
theorem option_inverse_counterexample :
    zeroCurrency.guard = 0 ∧
    (applyOpt (applyOpt (Guard 5) zeroCurrency).2
        (applyOpt (Guard 5) zeroCurrency).1).1.guard = 1 := by
  decide

/-- Claim C4 as amended: applying an option and then the `OptionFunc` it
returned restores the `Currency` exactly (in particular the affected
field), provided each prior field value is itself one the option mechanism
can store: nonzero guard, a precision fixed by `Precision`'s validation,
an in-range interval, non-nil formatter and JSON codecs (and float mirrors
consistent with the integer fields) — which excludes only field values
that no constructor/option run can produce, such as the zero value's
guard 0. -/
theorem option_inverse_restores (o : OptionFunc) (c : Currency)
    (hnf : o ≠ OptionFunc.fatal)
    (hg : c.guard ≠ 0)
    (hgf : c.guardf = (c.guard : ℚ))
    (hp : precVal c.dp = c.dp)
    (hdf : c.dpf = (c.dp : ℚ))
    (hi : c.Interval < interval999)
    (hf : c.fmt ≠ none)
    (hm : c.jm ≠ none)
    (hu : c.jum ≠ none) :
    (applyOpt (applyOpt o c).2 (applyOpt o c).1).1 = c := by
  obtain ⟨cm, cf, cv, ci, cjm, cjum, cg, cgf, cd, cdf⟩ := c
  dsimp only at hg hgf hp hdf hi hf hm hu
  cases o with
  | swedish i =>
    simp only [applyOpt, Swedish]
    rw [if_neg (not_le.mpr hi)]
  | guardO g =>
    simp only [applyOpt, Guard]
    rw [if_neg hg, hgf]
  | precision p =>
    simp only [applyOpt, Precision]
    rw [hp, hdf]
  | format f =>
    obtain ⟨fv, rfl⟩ := Option.ne_none_iff_exists'.mp hf
    simp only [applyOpt, Format]
  | jsonM mm =>
    obtain ⟨mv, rfl⟩ := Option.ne_none_iff_exists'.mp hm
    simp only [applyOpt, JSONMarshal]
  | jsonU u =>
    obtain ⟨uv, rfl⟩ := Option.ne_none_iff_exists'.mp hu
    simp only [applyOpt, JSONUnmarshal]
  | fatal =>
    exact absurd rfl hnf

/-- Witness for C4 (amended): on the default `New()` value, `Guard(5)`
followed by its returned inverse restores the value exactly. -/
theorem option_inverse_restores_witness :
    (New []).guard ≠ 0 ∧
    (applyOpt (applyOpt (Guard 5) (New [])).2
        (applyOpt (Guard 5) (New [])).1).1 = New [] :=
  ⟨by decide,
   option_inverse_restores (Guard 5) (New []) (by decide) (by decide)
     (by norm_num [New, applyOpts, Money.guardf, Money.guard])
     (by decide) (by norm_num [New, applyOpts, Money.dpf, Money.dp])
     (by decide) (by decide) (by decide) (by decide)⟩

/-- Claim C7, counterexample: `Guard` coerces only an exact zero — a
negative argument is stored as given, so the guard is not strictly
positive after every option application: `New(Guard(-5))` has guard -5. -/
theorem guard_negative_counterexample :
    (New [Guard (-5)]).guard = -5 ∧ (New [Guard (-5)]).guard < 0 := by
  decide

/-- Helper for C7: every constructor-produced option preserves a nonzero
guard field (only `Guard` writes it, and its payload is never zero). -/
lemma mkOpt_keeps_guard_ne_zero (o : OptCall) (c : Currency)
    (h : c.guard ≠ 0) : (applyOpt (mkOpt o) c).1.guard ≠ 0 := by
  cases o with
  | swedish i => exact h
  | guardC g =>
    simp only [mkOpt, Guard, applyOpt]
    split_ifs with h1
    · exact one_ne_zero
    · exact h1
  | precision p => exact h
  | format f => cases f <;> exact h
  | jsonM m => cases m <;> exact h
  | jsonU u => cases u <;> exact h

/-- Helper for C7: a nonzero guard is preserved by any sequence of
constructor-produced options. -/
lemma applyOpts_guard_ne_zero (calls : List OptCall) :
    ∀ c : Currency, c.guard ≠ 0 →
      (applyOpts (calls.map mkOpt) c).guard ≠ 0 := by
  induction calls with
  | nil => exact fun c h => h
  | cons o rest ih =>
    intro c h
    exact ih (applyOpt (mkOpt o) c).1 (mkOpt_keeps_guard_ne_zero o c h)

/-- Claim C7 as amended: `Guard` coerces a zero argument to 1, so after
the constructor and any sequence of option applications the stored guard
is never zero (though a negative argument is stored as given, so strict
positivity does not hold). -/
theorem guard_stays_nonzero (calls : List OptCall) (c : Currency)
    (h : c.guard ≠ 0) :
    (applyOpts (calls.map mkOpt) c).guard ≠ 0 ∧
    (New (calls.map mkOpt)).guard ≠ 0 ∧
    (applyOpt (Guard 0) c).1.guard = 1 := by
  refine ⟨applyOpts_guard_ne_zero calls c h, ?_, ?_⟩
  · exact applyOpts_guard_ne_zero calls _ (by decide)
  · rfl

/-- Witness for C7 (amended) on the sequence
`New(Guard(0), Swedish(Interval015), Precision(3))`. -/
theorem guard_stays_nonzero_witness :
    (New ([OptCall.guardC 0, OptCall.swedish 3,
        OptCall.precision 3].map mkOpt)).guard ≠ 0 ∧
    (applyOpt (Guard 0) (New [])).1.guard = 1 :=
  ⟨(guard_stays_nonzero [OptCall.guardC 0, OptCall.swedish 3,
      OptCall.precision 3] (New []) (by decide)).2.1,
   (guard_stays_nonzero [] (New []) (by decide)).2.2⟩

end Money
